import Mathlib

/-!
Verification of the Swodnil shell core (`shell_core.py`).

This file shallowly embeds the line parser (`parse_command_line`) and the
per-line execution logic of `run_shell` (segment processing, alias
substitution, the built-in dispatcher, conditional `&&`/`;` chaining,
elevation checks, background job table) and proves the frozen claims
about them.  External collaborators (shlex splitting, the translator
registry `command_translator.process_command`, process spawning, the OS
environment) are abstracted as oracle parameters, exactly as the spec
treats them.
-/

namespace Swodnil

/-- `Separator` enum from `shell_core.py` (PIPE, AND, SEMICOLON, BACKGROUND). -/
inductive Separator
  | pipe
  | andSep
  | semicolon
  | background
  deriving DecidableEq, Repr

/-- Python `str.strip()` on a character list: drop whitespace on both ends. -/
def stripChars (cs : List Char) : List Char :=
  ((cs.dropWhile Char.isWhitespace).reverse.dropWhile Char.isWhitespace).reverse

/-- Python `str.strip()` lifted to `String`. -/
def pyStrip (s : String) : String :=
  String.mk (stripChars s.toList)

/-- Segment accumulator entries: raw segment characters plus the separator
that followed the segment (`none` only for the final segment). -/
abbrev RawSegs := List (List Char × Option Separator)

/-- `if segment_to_add: segments.append((segment_to_add, separator))` —
push a stripped, non-empty segment with its separator. -/
def pushSeg (acc : RawSegs) (cur : List Char) (sep : Separator) : RawSegs :=
  let s := stripChars cur
  if s = [] then acc else acc ++ [(s, some sep)]

/-- The code after the scan loop of `parse_command_line` (lines 194-232):
append the final stripped segment, handling the (dead) overall-background
adjustment, then drop empty segments once more. -/
def parseFinal (acc : RawSegs) (cur : List Char) : RawSegs :=
  let lastSeg := stripChars cur
  let acc1 :=
    if lastSeg = [] then acc
    else
      match acc.getLast? with
      | some (s, some Separator.background) =>
          -- is_overall_background: retag the last parsed segment to None;
          -- the final segment's separator is then None (the `and not
          -- segments` condition can no longer hold).
          (acc.dropLast ++ [(s, none)]) ++ [(lastSeg, none)]
      | _ => acc ++ [(lastSeg, (none : Option Separator))]
  acc1.filter (fun p => ¬ p.1 = [])

/-- The character scan of `parse_command_line` (lines 148-192): one pass with
`in_single_quotes` / `in_double_quotes` / `escaped` modes; outside quotes it
recognizes `|`, `&&`, `;`, and a trailing `&` (which consumes the rest of the
line); any other character (including a non-trailing `&`) is literal. -/
def parseLoop : List Char → List Char → Bool → Bool → Bool → RawSegs → RawSegs
  | [], cur, _, _, _, acc => parseFinal acc cur
  | c :: rest, cur, sq, dq, esc, acc =>
    if c = '\'' ∧ esc = false then
      parseLoop rest (cur ++ [c]) (!sq) dq false acc
    else if c = '"' ∧ esc = false then
      parseLoop rest (cur ++ [c]) sq (!dq) false acc
    else if c = '\\' ∧ esc = false then
      parseLoop rest (cur ++ [c]) sq dq true acc
    else if sq = false ∧ dq = false ∧ esc = false then
      if c = '|' then
        parseLoop rest [] sq dq false (pushSeg acc cur .pipe)
      else if c = ';' then
        parseLoop rest [] sq dq false (pushSeg acc cur .semicolon)
      else if c = '&' then
        match rest with
        | [] =>
          -- trailing &: increment = n consumes the rest of the line
          parseFinal (pushSeg acc cur .background) []
        | d :: rest2 =>
          if d = '&' then
            -- `index + 1 < n and line[index+1] == '&'`
            parseLoop rest2 [] sq dq false (pushSeg acc cur .andSep)
          else if (d :: rest2).all Char.isWhitespace then
            -- trailing &: increment = n consumes the rest of the line
            parseFinal (pushSeg acc cur .background) []
          else
            parseLoop (d :: rest2) (cur ++ [c]) sq dq false acc
      else
        parseLoop rest (cur ++ [c]) sq dq false acc
    else
      parseLoop rest (cur ++ [c]) sq dq false acc

/-- The `&`-handling of the scan, as a function of the remaining input:
`&&` is an operator, a blank remainder makes a trailing background `&`, and
anything else leaves the `&` literal. -/
def ampCase (c : Char) (cs cur : List Char) (sq dq : Bool) (acc : RawSegs) : RawSegs :=
  match cs with
  | [] => parseFinal (pushSeg acc cur .background) []
  | d :: rest2 =>
    if d = '&' then
      parseLoop rest2 [] sq dq false (pushSeg acc cur .andSep)
    else if (d :: rest2).all Char.isWhitespace then
      parseFinal (pushSeg acc cur .background) []
    else
      parseLoop (d :: rest2) (cur ++ [c]) sq dq false acc

/-- `parse_command_line(line)` from `shell_core.py`: the full parse, with
segment texts converted back to strings. -/
def parse_command_line (line : String) : List (String × Option Separator) :=
  (parseLoop line.toList [] false false false []).map fun p => (String.mk p.1, p.2)

/-- Quote/escape state evolution of the scan (the state changes performed by
`parse_command_line` on characters that are not recognized as operators). -/
def scanQ : Bool → Bool → Bool → List Char → Bool × Bool × Bool
  | sq, dq, esc, [] => (sq, dq, esc)
  | sq, dq, esc, c :: rest =>
    if c = '\'' ∧ esc = false then scanQ (!sq) dq false rest
    else if c = '"' ∧ esc = false then scanQ sq (!dq) false rest
    else if c = '\\' ∧ esc = false then scanQ sq dq true rest
    else scanQ sq dq false rest

/-- `true` iff the scan starting in the given quote/escape state recognizes
no operator anywhere in `cs` (every `|`, `;`, `&` is quoted, escaped, or a
literal non-trailing `&`). -/
def noUnquotedOp : Bool → Bool → Bool → List Char → Bool
  | _, _, _, [] => true
  | sq, dq, esc, c :: rest =>
    if c = '\'' ∧ esc = false then noUnquotedOp (!sq) dq false rest
    else if c = '"' ∧ esc = false then noUnquotedOp sq (!dq) false rest
    else if c = '\\' ∧ esc = false then noUnquotedOp sq dq true rest
    else if sq = false ∧ dq = false ∧ esc = false then
      if c = '|' then false
      else if c = ';' then false
      else if c = '&' then
        if rest = [] then false
        else if rest.head? = some '&' then false
        else if rest.all Char.isWhitespace then false
        else noUnquotedOp sq dq false rest
      else noUnquotedOp sq dq false rest
    else noUnquotedOp sq dq false rest

/-- `environment_overrides` maps: association lists of variable name to value. -/
abbrev Env := List (String × String)

def envGet : Env → String → Option String
  | [], _ => none
  | (k, v) :: rest, n => if k = n then some v else envGet rest n

def envSet (e : Env) (n v : String) : Env :=
  if (envGet e n).isSome then e.map (fun p => if p.1 = n then (n, v) else p)
  else e ++ [(n, v)]

def envDel (e : Env) (n : String) : Env := e.filter (fun p => ¬ p.1 = n)

/-- Marker constant `SIMULATION_MARKER_PREFIX` from `command_translator.py`. -/
def simMarker : String := "#SIMULATION_EXEC:"

/-- Marker constant `NO_EXEC_MARKER` from `command_translator.py`. -/
def noExecMarker : String := "#NO_EXEC:"

/-- `help_marker_convention` from `run_shell`. -/
def helpMarker : String := "SWODNIL_HELP_MESSAGE:"

/-- Python `s.startswith(pre)` (list-based, kernel-reducible). -/
def pyStartsWith (s pre : String) : Bool := pre.toList.isPrefixOf s.toList

/-- Python `s[n:]` (drop the first `n` characters). -/
def pyDrop (s : String) (n : Nat) : String := String.mk (s.toList.drop n)

/-- Python `c in s` for a single character. -/
def pyHasChar (s : String) (c : Char) : Bool := s.toList.contains c

/-- Python `s.lower()` (ASCII-adequate). -/
def pyLower (s : String) : String := String.mk (s.toList.map Char.toLower)

/-- Helper for `splitWords`: split on whitespace runs, accumulating the
current word reversed. -/
def wordsAux : List Char → List Char → List String
  | [], acc => if acc = [] then [] else [String.mk acc.reverse]
  | c :: rest, acc =>
    if c.isWhitespace then
      if acc = [] then wordsAux rest [] else String.mk acc.reverse :: wordsAux rest []
    else wordsAux rest (c :: acc)

/-- Naive whitespace tokenizer, used as a concrete `split` oracle in
witnesses (adequate for quote-free inputs, where it agrees with
`shlex.split(_, posix=False)`). -/
def splitWords (s : String) : List String := wordsAux s.toList []

/-- Observable actions of one REPL iteration.  Error/info constructors stand
for the corresponding `ui_manager.display_*` calls; spawn constructors record
the environment map handed to the child process. -/
inductive Event
  | aliasExpanded (name expansion : String)
  | errBuiltinBackground (name : String)
  | errBuiltinParse
  | errParse (seg : String)
  | errEmptySegment
  | errBuiltinInSequence (name : String)
  | errElevationDisallowed (name : String)
  | errBgSpawnFailed
  | translated (cmd : String) (args : List String)
  | helpPanel (cmd text : String)
  | execFg (cmd : String) (env : Env)
  | spawnBg (id pid : Nat) (display : String) (env : Env)
  | printJobStart (id pid : Nat) (display : String)
  | elevPrompt (display : String)
  | elevLaunch (cmd : String) (env : Env)
  | infoMsg (tag : String)
  | warnMsg (tag : String)
  | errorMsg (tag : String)
  | jobDone (id : Nat) (rc : Int) (display : String)
  deriving DecidableEq, Repr

/-- External collaborators of `run_shell`, abstracted: `shlex.split`
(`none` models a `ValueError`), `command_translator.process_command`,
the three process-spawn entry points, the user's elevation confirmation,
job polling, and the OS helpers used by built-ins. -/
structure Oracles where
  split : String → Option (List String)
  translate : String → List String → Option String × Bool
  exec : String → Int
  spawn : String → Option Nat
  elevConfirm : String → Bool
  elevRun : String → Int
  poll : Nat → Option Int
  expandvars : String → String
  chdir : String → Option String
  home : String

/-- Session state owned by `run_shell`: aliases, `shell_environment`
(the override map), the real process environment (modelled explicitly so
frame properties can be stated; `run_shell` never writes it), the
background job table and the monotonic job-id counter. -/
structure ShellSt where
  aliases : List (String × String)
  shellEnv : Env
  realEnv : Env
  jobs : List (Nat × Nat × String)
  nextJobId : Nat
  deriving DecidableEq, Repr

/-- `shell_environment = copy.deepcopy(os.environ)` together with the other
initializations at the top of `run_shell`. -/
def initShellState (realEnv : Env) (aliases : List (String × String)) : ShellSt :=
  { aliases := aliases, shellEnv := realEnv, realEnv := realEnv,
    jobs := [], nextJobId := 1 }

/-- Per-line mutable locals of the pipeline loop in `run_shell`
(lines 368-372). -/
structure LoopSt where
  lastReturnCode : Int
  failedForAnd : Bool
  pipeTranslated : List String
  pipeOriginal : List String
  needsElevOverall : Bool
  deriving DecidableEq, Repr

def initLoopSt : LoopSt :=
  { lastReturnCode := 0, failedForAnd := false, pipeTranslated := [],
    pipeOriginal := [], needsElevOverall := false }

/-- Result of processing one segment (or a run of segments): updated session
state, updated loop locals, emitted events, and whether the loop `break`-ed. -/
structure StepRes where
  st : ShellSt
  ls : LoopSt
  events : List Event
  broke : Bool
  deriving DecidableEq, Repr

/-- Python `s.split(maxsplit=1)[0]`: the first whitespace-delimited token. -/
def pyFirstToken (s : String) : String :=
  String.mk ((s.toList.dropWhile Char.isWhitespace).takeWhile (fun c => ¬ c.isWhitespace))

/-- Python `s.split(maxsplit=1)[1]` (everything after the first token and the
following whitespace run); empty when there is no second piece. -/
def pyRestAfterToken (s : String) : String :=
  String.mk (((s.toList.dropWhile Char.isWhitespace).dropWhile
    (fun c => ¬ c.isWhitespace)).dropWhile Char.isWhitespace)

/-- Python `' ' in s`. -/
def containsSpace (s : String) : Bool := s.toList.contains ' '

def lookupAlias : List (String × String) → String → Option String
  | [], _ => none
  | (k, v) :: rest, n => if k = n then some v else lookupAlias rest n

/-- Alias substitution as done in `run_shell` (lines 294-300 and 394-400):
if the first whitespace token is a known alias, replace it by its
expansion, re-attach `split(maxsplit=1)[1]` when the text contains a
literal space, and strip the result. -/
def aliasApply (aliases : List (String × String)) (text : String) :
    String × List Event :=
  match lookupAlias aliases (pyFirstToken text) with
  | some expansion =>
    let rem := if containsSpace text then pyRestAfterToken text else ""
    let p := pyStrip (expansion ++ " " ++ rem)
    (p, [.aliasExpanded (pyFirstToken text) p])
  | none => (text, [])

/-- The `builtins` list of the single-command dispatcher (line 308). -/
def builtinsList : List String :=
  ["help", "exit", "quit", "cd", "history", "alias", "unalias", "export", "unset"]

/-- The built-ins disallowed in complex sequences (line 417). -/
def complexDisallowed : List String :=
  ["help", "exit", "quit", "cd", "alias", "unalias", "export", "unset", "history"]

/-- `job_id = next_job_id; background_jobs[job_id] = process; next_job_id += 1`
(lines 518): allocate the next monotonic id and store the job. -/
def registerJob (jobs : List (Nat × Nat × String)) (nextId pid : Nat)
    (display : String) : Nat × List (Nat × Nat × String) × Nat :=
  (nextId, jobs ++ [(nextId, pid, display)], nextId + 1)

/-- The completed-background-job sweep at the end of each REPL iteration
(lines 582-592): report every terminated job and delete it from the table. -/
def reapJobs (poll : Nat → Option Int) (jobs : List (Nat × Nat × String)) :
    List Event × List (Nat × Nat × String) :=
  (jobs.filterMap (fun j => (poll j.2.1).map fun rc => Event.jobDone j.1 rc j.2.2),
   jobs.filter (fun j => (poll j.2.1).isNone))

/-- `pipeline_failed_for_and` update after a pipeline unit runs
(lines 574-578). -/
def condUpdate (ls : LoopSt) (sep : Option Separator) : LoopSt :=
  if sep = some Separator.andSep ∧ ls.lastReturnCode ≠ 0 then
    { ls with failedForAnd := true }
  else if sep = some Separator.semicolon then { ls with failedForAnd := false }
  else ls

/-- The execution block of the pipeline loop (lines 486-579): when the
current separator is not a pipe, join the accumulated translated segments
and dispatch them as a background job, an elevation request, or a streaming
foreground run; then update the conditional-execution flag. -/
def execPhase (O : Oracles) (total : Nat) (st : ShellSt) (ls : LoopSt)
    (sep : Option Separator) (isLast simFlag : Bool) : StepRes :=
  if sep = some Separator.pipe then ⟨st, ls, [], false⟩
  else
    let finalCmd := if simFlag = false ∨ ls.pipeTranslated ≠ [] then
        String.intercalate " | " ls.pipeTranslated
      else ""
    let display := String.intercalate " | " ls.pipeOriginal
    let tempElev := ls.needsElevOverall
    let ls1 : LoopSt :=
      { ls with pipeTranslated := [], pipeOriginal := [], needsElevOverall := false }
    if finalCmd = "" then
      let rc := if simFlag = true then (0 : Int) else ls1.lastReturnCode
      ⟨st, condUpdate { ls1 with lastReturnCode := rc } sep, [], false⟩
    else if sep = some Separator.background ∧ isLast = true then
      match O.spawn finalCmd with
      | some pid =>
        let id := st.nextJobId
        ⟨{ st with jobs := st.jobs ++ [(id, pid, display)], nextJobId := id + 1 },
         condUpdate { ls1 with lastReturnCode := 0 } sep,
         [.spawnBg id pid display st.shellEnv, .printJobStart id pid display],
         false⟩
      | none =>
        ⟨st, condUpdate { ls1 with lastReturnCode := 1 } sep,
         [.errBgSpawnFailed], false⟩
    else if tempElev = true ∧
        (total = 1 ∨ (sep ≠ some Separator.pipe ∧ sep ≠ some Separator.andSep ∧
          sep ≠ some Separator.semicolon)) then
      if O.elevConfirm display then
        let rc := O.elevRun finalCmd
        if rc ≠ 0 then
          ⟨st, condUpdate { ls1 with lastReturnCode := rc } sep,
           [.elevPrompt display, .elevLaunch finalCmd st.shellEnv,
            .errorMsg "Failed to initiate elevation"], false⟩
        else
          ⟨st, condUpdate { ls1 with lastReturnCode := 0 } sep,
           [.elevPrompt display, .elevLaunch finalCmd st.shellEnv,
            .infoMsg "Elevated command window launched."], false⟩
      else
        ⟨st, condUpdate { ls1 with lastReturnCode := 1 } sep,
         [.elevPrompt display, .infoMsg "Elevation cancelled by user."], false⟩
    else
      ⟨st, condUpdate { ls1 with lastReturnCode := O.exec finalCmd } sep,
       [.execFg finalCmd st.shellEnv], false⟩

/-- The per-segment alias decision of the pipeline loop (lines 385-400):
alias substitution applies to the first segment and to any segment whose
preceding separator is not a pipe. -/
def segProcessedText (aliases : List (String × String))
    (prevSep : Option (Option Separator)) (text : String) : String × List Event :=
  let canAlias : Bool := match prevSep with
    | none => true
    | some ps => if ps = some Separator.pipe then false else true
  if canAlias = true then aliasApply aliases text else (text, [])

/-- One iteration of the pipeline `for` loop (lines 374-580): skip logic for
`&&` failure, alias substitution, shell-split, the complex-sequence built-in
check, translation with the elevation-context check, the three translation
result shapes, and the execution block. -/
def segStep (O : Oracles) (total : Nat) (st : ShellSt) (ls : LoopSt)
    (prevSep : Option (Option Separator)) (text : String) (sep : Option Separator)
    (isLast : Bool) : StepRes :=
  if ls.failedForAnd = true then
    ⟨st, { ls with failedForAnd :=
        if sep = some Separator.semicolon then false else ls.failedForAnd },
     [], false⟩
  else
    let pe := segProcessedText st.aliases prevSep text
    match O.split pe.1 with
    | none => ⟨st, { ls with failedForAnd := true }, pe.2 ++ [.errParse pe.1], true⟩
    | some [] => ⟨st, { ls with failedForAnd := true }, pe.2 ++ [.errEmptySegment], true⟩
    | some (command :: args) =>
      let ls1 := { ls with pipeOriginal := ls.pipeOriginal ++ [pe.1] }
      if (1 < total ∨ sep = some Separator.pipe ∨ prevSep = some (some Separator.pipe))
          ∧ pyLower command ∈ complexDisallowed then
        ⟨st, { ls1 with failedForAnd := true },
         pe.2 ++ [.errBuiltinInSequence (pyLower command)], true⟩
      else
        let tr := O.translate command args
        let ls2 := if tr.2 = true then { ls1 with needsElevOverall := true } else ls1
        if tr.2 = true ∧ (1 < total ∨ sep = some Separator.background ∨
            prevSep = some (some Separator.pipe) ∨ sep = some Separator.pipe) then
          ⟨st, { ls2 with failedForAnd := true },
           pe.2 ++ Event.translated command args :: [.errElevationDisallowed command], true⟩
        else
          match tr.1 with
          | some s =>
            if pyStartsWith s simMarker = true then
              let r := execPhase O total st ls2 sep isLast true
              ⟨r.st, r.ls, pe.2 ++ Event.translated command args :: r.events, r.broke⟩
            else if pyStartsWith s noExecMarker = true then
              let inner := pyDrop s noExecMarker.length
              let hEvs := if pyStartsWith inner helpMarker = true then
                  [Event.helpPanel command (pyStrip (pyDrop inner helpMarker.length))]
                else []
              ⟨st, { ls2 with failedForAnd := true },
               pe.2 ++ Event.translated command args :: hEvs, true⟩
            else
              let r := execPhase O total st
                { ls2 with pipeTranslated := ls2.pipeTranslated ++ [s] } sep isLast false
              ⟨r.st, r.ls, pe.2 ++ Event.translated command args :: r.events, r.broke⟩
          | none =>
            let r := execPhase O total st
              { ls2 with pipeTranslated := ls2.pipeTranslated ++ [pe.1] } sep isLast false
            ⟨r.st, r.ls, pe.2 ++ Event.translated command args :: r.events, r.broke⟩

/-- The pipeline `for` loop over all parsed segments, threading the
previous separator (used for the alias and pipe-context checks) and
stopping on `break`. -/
def runSegs (O : Oracles) (total : Nat) :
    ShellSt → LoopSt → Option (Option Separator) →
    List (String × Option Separator) → StepRes
  | st, ls, _, [] => ⟨st, ls, [], false⟩
  | st, ls, prev, (text, sep) :: rest =>
    let r := segStep O total st ls prev text sep rest.isEmpty
    if r.broke then r
    else
      let r2 := runSegs O total r.st r.ls (some sep) rest
      ⟨r2.st, r2.ls, r.events ++ r2.events, r2.broke⟩

/-- What one REPL iteration does next: go round the loop again, or leave it
(`exit`/`quit` raise `EOFError`). -/
inductive Outcome
  | continueLoop
  | exitShell
  deriving DecidableEq, Repr

/-- Python `s.split('=', 1)`. -/
def splitEq1 (s : String) : String × String :=
  (String.mk (s.toList.takeWhile (fun c => ¬ c = '=')),
   String.mk ((s.toList.dropWhile (fun c => ¬ c = '=')).drop 1))

/-- Python `s.strip("'\"")`: remove single/double quote characters from both
ends. -/
def stripQuotes (s : String) : String :=
  let q : Char → Bool := fun c => c = '\'' ∨ c = '"'
  String.mk (((s.toList.dropWhile q).reverse.dropWhile q).reverse)

def aliasSet (al : List (String × String)) (n v : String) : List (String × String) :=
  if (lookupAlias al n).isSome then al.map (fun p => if p.1 = n then (n, v) else p)
  else al ++ [(n, v)]

def aliasDel (al : List (String × String)) (n : String) : List (String × String) :=
  al.filter (fun p => ¬ p.1 = n)

/-- The built-in dispatcher of `run_shell` (lines 309-352), one case per
verb.  Returns the updated session state, `last_return_code_builtin`, the
displayed messages, and whether the REPL keeps running. -/
def runBuiltin (O : Oracles) (st : ShellSt) (cmdLower : String)
    (args : List String) : ShellSt × Int × List Event × Outcome :=
  if cmdLower = "help" then (st, 0, [.infoMsg "help page"], .continueLoop)
  else if cmdLower = "exit" ∨ cmdLower = "quit" then (st, 0, [], .exitShell)
  else if cmdLower = "cd" then
    let target := match args with
      | [] => O.home
      | a :: _ => a
    match O.chdir (O.expandvars target) with
    | some newCwd =>
      ({ st with shellEnv := envSet st.shellEnv "PWD" newCwd }, 0, [], .continueLoop)
    | none => (st, 1, [.errorMsg "cd failed"], .continueLoop)
  else if cmdLower = "history" then (st, 0, [.infoMsg "history"], .continueLoop)
  else if cmdLower = "alias" then
    match args with
    | [] => (st, 0, [.infoMsg "alias list"], .continueLoop)
    | a :: _ =>
      if pyHasChar a '=' then
        let nv := splitEq1 a
        ({ st with aliases := aliasSet st.aliases nv.1 (stripQuotes nv.2) },
         0, [.infoMsg "Alias set", .infoMsg "aliases saved"], .continueLoop)
      else if (lookupAlias st.aliases a).isSome then
        (st, 0, [.infoMsg "alias show"], .continueLoop)
      else (st, 1, [.errorMsg "alias: not found"], .continueLoop)
  else if cmdLower = "unalias" then
    match args with
    | [] => (st, 1, [.errorMsg "unalias: missing operand"], .continueLoop)
    | a :: _ =>
      if (lookupAlias st.aliases a).isSome then
        ({ st with aliases := aliasDel st.aliases a },
         0, [.infoMsg "Alias removed", .infoMsg "aliases saved"], .continueLoop)
      else (st, 1, [.errorMsg "unalias: not found"], .continueLoop)
  else if cmdLower = "export" then
    -- lines 335-341: the bare `export` and `export NAME` forms are both
    -- rejected by the first condition; the show-one fallback is unreachable.
    match args with
    | [] => (st, 1, [.errorMsg "export: invalid format"], .continueLoop)
    | a :: _ =>
      if ¬ pyHasChar a '=' = true then (st, 1, [.errorMsg "export: invalid format"], .continueLoop)
      else if pyHasChar a '=' then
        let nv := splitEq1 a
        ({ st with shellEnv := envSet st.shellEnv nv.1 (O.expandvars (stripQuotes nv.2)) },
         0, [.infoMsg "Exported"], .continueLoop)
      else
        -- dead fallback (line 340-341)
        if (envGet st.shellEnv a).isSome then (st, 0, [.infoMsg "export show"], .continueLoop)
        else (st, 1, [.errorMsg "export: var not found"], .continueLoop)
  else if cmdLower = "unset" then
    match args with
    | [] => (st, 1, [.errorMsg "unset: missing operand"], .continueLoop)
    | a :: _ =>
      if (envGet st.shellEnv a).isSome then
        ({ st with shellEnv := envDel st.shellEnv a }, 0, [.infoMsg "Unset"], .continueLoop)
      else (st, 0, [.warnMsg "unset: var not found"], .continueLoop)
  else (st, 0, [], .continueLoop)

/-- The single-command check of `run_shell` (lines 276-364): reject any
single backgrounded command, apply the alias, shell-split, and dispatch a
built-in.  `Sum.inl evs` means "not handled here, fall through to the
pipeline path" (carrying the already-printed alias-expansion message). -/
def singleCheck (O : Oracles) (st : ShellSt) (text : String)
    (sep : Option Separator) : Sum (List Event) (ShellSt × List Event × Outcome) :=
  if sep = some Separator.background then
    let name := match O.split text with
      | some (t :: _) => t
      | _ => "Built-in"
    Sum.inr (st, [.errBuiltinBackground name], .continueLoop)
  else
    let pe := aliasApply st.aliases text
    match O.split pe.1 with
    | none => Sum.inr (st, pe.2 ++ [.errBuiltinParse], .continueLoop)
    | some [] => Sum.inl pe.2
    | some (command :: _args) =>
      if pyLower command ∈ builtinsList then
        let r := runBuiltin O st (pyLower command) _args
        Sum.inr (r.1, pe.2 ++ r.2.2.1, r.2.2.2)
      else Sum.inl pe.2

/-- Processing of one already-parsed input line by `run_shell`: the
single-command built-in path, otherwise the pipeline loop, followed by the
completed-background-job sweep (which `continue`-style exits skip, exactly as
in the source). -/
def run_shell_line (O : Oracles) (st : ShellSt)
    (parsed : List (String × Option Separator)) : ShellSt × List Event × Outcome :=
  match parsed with
  | [] => (st, [], .continueLoop)
  | [(text, sep)] =>
    match singleCheck O st text sep with
    | Sum.inr r => r
    | Sum.inl preEvs =>
      let r := runSegs O 1 st initLoopSt none [(text, sep)]
      let reap := reapJobs O.poll r.st.jobs
      ({ r.st with jobs := reap.2 }, preEvs ++ r.events ++ reap.1, .continueLoop)
  | _ =>
    let r := runSegs O parsed.length st initLoopSt none parsed
    let reap := reapJobs O.poll r.st.jobs
    ({ r.st with jobs := reap.2 }, r.events ++ reap.1, .continueLoop)

/-- One full REPL iteration on a raw input line: skip blank input, parse,
then process. -/
def run_shell_iteration (O : Oracles) (st : ShellSt) (raw : String) :
    ShellSt × List Event × Outcome :=
  if pyStrip raw = "" then (st, [], .continueLoop)
  else run_shell_line O st (parse_command_line raw)

/-- A concrete oracle assignment used by counterexamples and witnesses:
whitespace splitting, no translations, all commands succeed. -/
def O0 : Oracles :=
  { split := fun s => some (splitWords s),
    translate := fun _ _ => (none, false),
    exec := fun _ => 0,
    spawn := fun _ => some 4242,
    elevConfirm := fun _ => true,
    elevRun := fun _ => 0,
    poll := fun _ => none,
    expandvars := id,
    chdir := fun _ => none,
    home := "HOME" }

/-- A concrete starting state with one alias (`ll`) and a tiny environment. -/
def st0 : ShellSt := initShellState [("PATH", "C:bin")] [("ll", "ls -l")]

/-- An oracle where `sudocmd` translates to a runnable string that requests
elevation, everything else is native; `cmda` exits with status 1, all other
commands with 0. -/
def O1 : Oracles :=
  { O0 with
    translate := fun c _ => if c = "sudocmd" then (some "Elevated-PS", true) else (none, false),
    exec := fun s => if s = "cmda" then 1 else 0 }

/-- An oracle whose translator returns every command as its own runnable
PowerShell string; `cmda` exits with status 1, everything else with 0. -/
def O2 : Oracles :=
  { O0 with
    translate := fun c _ => (some c, false),
    exec := fun s => if s = "cmda" then 1 else 0 }

/-- Events that correspond to spawning an external process
(`subprocess.Popen`, `subprocess.run`, `_run_powershell_command`). -/
def isSpawnEvent : Event → Bool
  | .execFg _ _ => true
  | .spawnBg _ _ _ _ => true
  | .elevLaunch _ _ => true
  | _ => false

/-- The environment map recorded by a process-spawning event (`none` for
events that spawn nothing). -/
def eventSpawnEnv : Event → Option Env
  | .execFg _ env => some env
  | .spawnBg _ _ _ env => some env
  | .elevLaunch _ env => some env
  | _ => none

/-- Job ids stored in a job table. -/
def jobIds (jobs : List (Nat × Nat × String)) : List Nat := jobs.map (fun j => j.1)

/-- Job ids reported by a list of events. -/
def reportedIds (evs : List Event) : List Nat :=
  evs.filterMap fun e => match e with
    | .jobDone i _ _ => some i
    | _ => none

/-- Abstract history of job-table operations within one session: a
registration at background-dispatch time, or one end-of-iteration sweep. -/
inductive JobOp
  | register (pid : Nat) (display : String)
  | reap (poll : Nat → Option Int)

/-- Run a history of job-table operations from a given table and counter,
returning the final table/counter and the log of allocated job ids. -/
def applyJobOps : (List (Nat × Nat × String) × Nat) → List JobOp →
    ((List (Nat × Nat × String) × Nat) × List Nat)
  | s, [] => (s, [])
  | (jobs, nid), (JobOp.register pid d) :: rest =>
    let r := registerJob jobs nid pid d
    let out := applyJobOps (r.2.1, r.2.2) rest
    (out.1, r.1 :: out.2)
  | (jobs, nid), (JobOp.reap poll) :: rest =>
    applyJobOps ((reapJobs poll jobs).2, nid) rest

/-- Number of registrations in a job-op history. -/
def countRegs : List JobOp → Nat
  | [] => 0
  | (JobOp.register _ _) :: rest => countRegs rest + 1
  | (JobOp.reap _) :: rest => countRegs rest

example : parse_command_line "ls -l" = [("ls -l", none)] := by decide
example : parse_command_line "a && b" = [("a", some .andSep), ("b", none)] := by decide
example : parse_command_line "a | b &" = [("a", some .pipe), ("b", some .background)] := by decide

/-- C2: on the input line `longrunning &` — a single non-built-in command
with a trailing `&` — `run_shell` does not spawn a detached background job,
does not register a `BackgroundJob`, and does not print a `[id] pid ...`
line; the early single-command check (lines 282-291) rejects EVERY single
backgrounded command with the error reserved for built-ins, and skips to
the next prompt, contradicting the documented background-dispatch scenario
(which the unreachable code at lines 511-521 was meant to implement). -/
theorem claim_C2_single_background_never_dispatched :
    parse_command_line "longrunning &" = [("longrunning", some Separator.background)] ∧
    run_shell_iteration O0 st0 "longrunning &" =
      (st0, [Event.errBuiltinBackground "longrunning"], Outcome.continueLoop) ∧
    ((run_shell_iteration O0 st0 "longrunning &").2.1.all
      (fun e => !isSpawnEvent e)) = true ∧
    (run_shell_iteration O0 st0 "longrunning &").1.jobs = [] := by
  refine ⟨by decide, by decide, by decide, by decide⟩

/-- C7 counterexample: `export` with no arguments does not list the
environment overrides, and `export NAME` does not show the variable's
value — both are rejected with the invalid-format error (the listed/shown
behavior the claim describes does not exist in the code: lines 335-341). -/
theorem claim_C7_counterexample :
    run_shell_iteration O0 st0 "export" =
      (st0, [Event.errorMsg "export: invalid format"], Outcome.continueLoop) ∧
    run_shell_iteration O0 st0 "export PATH" =
      (st0, [Event.errorMsg "export: invalid format"], Outcome.continueLoop) := by
  refine ⟨by decide, by decide⟩

/-- C7 (amended): the built-in `export` supports only the `NAME=VALUE` form
(setting the override map entry to the quote-stripped, variable-expanded
value); both `export` with no arguments and `export NAME` are rejected with
an invalid-format error and exit code 1, leaving the state unchanged. -/
theorem claim_C7_export_only_assignment_form (O : Oracles) (st : ShellSt) :
    (runBuiltin O st "export" [] =
      (st, 1, [Event.errorMsg "export: invalid format"], Outcome.continueLoop)) ∧
    (∀ a args, pyHasChar a '=' = false →
      runBuiltin O st "export" (a :: args) =
        (st, 1, [Event.errorMsg "export: invalid format"], Outcome.continueLoop)) ∧
    (∀ a args, pyHasChar a '=' = true →
      runBuiltin O st "export" (a :: args) =
        ({ st with shellEnv := envSet st.shellEnv (splitEq1 a).1 (O.expandvars (stripQuotes (splitEq1 a).2)) },
         0, [Event.infoMsg "Exported"], Outcome.continueLoop)) := by
  refine ⟨by simp [runBuiltin], fun a args h => ?_, fun a args h => ?_⟩ <;>
    simp [runBuiltin, h]

/-- Witness for C7 (amended) at concrete inputs. -/
theorem claim_C7_export_witness :
    runBuiltin O0 st0 "export" ["X=1"] =
      ({ st0 with shellEnv := envSet st0.shellEnv (splitEq1 "X=1").1 (O0.expandvars (stripQuotes (splitEq1 "X=1").2)) },
       0, [Event.infoMsg "Exported"], Outcome.continueLoop) ∧
    runBuiltin O0 st0 "export" ["PATH"] =
      (st0, 1, [Event.errorMsg "export: invalid format"], Outcome.continueLoop) :=
  ⟨(claim_C7_export_only_assignment_form O0 st0).2.2 "X=1" [] (by decide),
   (claim_C7_export_only_assignment_form O0 st0).2.1 "PATH" [] (by decide)⟩

/-- Allocated-id log: over any operation history, the ids handed out by
`registerJob` are the consecutive integers starting at the initial counter
(reaps never reset or reuse the counter). -/
theorem applyJobOps_log (ops : List JobOp) : ∀ jobs nid,
    (applyJobOps (jobs, nid) ops).2 = List.range' nid (countRegs ops) := by
  induction ops with
  | nil => intro jobs nid; simp [applyJobOps, countRegs]
  | cons op rest ih =>
    intro jobs nid
    cases op with
    | register pid d =>
      simp [applyJobOps, countRegs, registerJob, ih, List.range'_succ]
    | reap poll => simp [applyJobOps, countRegs, ih]

/-- Job-table well-formedness: stored ids are distinct and below the
counter. -/
def tableWF (jobs : List (Nat × Nat × String)) (nid : Nat) : Prop :=
  (jobIds jobs).Nodup ∧ ∀ i ∈ jobIds jobs, i < nid

theorem tableWF_register (jobs : List (Nat × Nat × String)) (nid pid : Nat)
    (d : String) (h : tableWF jobs nid) : tableWF (jobs ++ [(nid, pid, d)]) (nid + 1) := by
  obtain ⟨h1, h2⟩ := h
  constructor
  · rw [jobIds, List.map_append, List.nodup_append]
    refine ⟨h1, by simp, ?_⟩
    intro i hi hmem
    simp only [List.map_cons, List.map_nil, List.mem_singleton] at hmem
    exact absurd (h2 i hi) (by omega)
  · intro i hi
    rw [jobIds, List.map_append] at hi
    rcases List.mem_append.1 hi with h' | h'
    · exact Nat.lt_succ_of_lt (h2 i h')
    · simp only [List.map_cons, List.map_nil, List.mem_singleton] at h'
      omega

theorem jobIds_filter_subset (p : Nat × Nat × String → Bool)
    (jobs : List (Nat × Nat × String)) :
    ∀ i, i ∈ jobIds (jobs.filter p) → i ∈ jobIds jobs := by
  intro i hi
  rw [jobIds] at hi ⊢
  rcases List.mem_map.1 hi with ⟨j, hj, rfl⟩
  exact List.mem_map_of_mem _ (List.mem_of_mem_filter hj)

theorem tableWF_reap (poll : Nat → Option Int) (jobs : List (Nat × Nat × String))
    (nid : Nat) (h : tableWF jobs nid) : tableWF (reapJobs poll jobs).2 nid := by
  obtain ⟨h1, h2⟩ := h
  show tableWF (jobs.filter (fun j => (poll j.2.1).isNone)) nid
  constructor
  · have hs : (jobIds (jobs.filter (fun j => (poll j.2.1).isNone))).Sublist (jobIds jobs) := by
      rw [jobIds, jobIds]
      exact (List.filter_sublist jobs).map _
    exact h1.sublist hs
  · intro i hi
    exact h2 i (jobIds_filter_subset _ jobs i hi)

theorem tableWF_apply (ops : List JobOp) : ∀ jobs nid, tableWF jobs nid →
    tableWF (applyJobOps (jobs, nid) ops).1.1 (applyJobOps (jobs, nid) ops).1.2 := by
  induction ops with
  | nil => intro jobs nid h; simpa [applyJobOps] using h
  | cons op rest ih =>
    intro jobs nid h
    cases op with
    | register pid d =>
      have h' := tableWF_register jobs nid pid d h
      simpa [applyJobOps, registerJob] using ih _ _ h'
    | reap poll =>
      have h' := tableWF_reap poll jobs nid h
      simpa [applyJobOps] using ih _ _ h'

/-- The ids reported by one sweep are exactly the ids of the entries whose
process has terminated. -/
theorem reportedIds_reap (poll : Nat → Option Int) (jobs : List (Nat × Nat × String)) :
    reportedIds (reapJobs poll jobs).1 =
      jobIds (jobs.filter (fun j => (poll j.2.1).isSome)) := by
  induction jobs with
  | nil => simp [reapJobs, reportedIds, jobIds]
  | cons j rest ih =>
    cases hp : poll j.2.1 with
    | none =>
      simpa [reapJobs, reportedIds, jobIds, hp, List.filterMap_cons,
        List.filter_cons] using ih
    | some rc =>
      simpa [reapJobs, reportedIds, jobIds, hp, List.filterMap_cons,
        List.filter_cons] using ih

theorem reap_partition_disjoint (poll : Nat → Option Int) :
    ∀ jobs : List (Nat × Nat × String), (jobIds jobs).Nodup → ∀ i : Nat,
    i ∈ jobIds (jobs.filter (fun j => (poll j.2.1).isSome)) →
    i ∈ jobIds (jobs.filter (fun j => (poll j.2.1).isNone)) → False := by
  intro jobs
  induction jobs with
  | nil => intro _ i h1 _; simp [jobIds] at h1
  | cons j rest ih =>
    intro h i h1 h2
    simp only [jobIds, List.map_cons, List.nodup_cons] at h
    cases hp : poll j.2.1 with
    | none =>
      simp only [List.filter_cons, hp, Option.isSome_none, Option.isNone_none,
        Bool.false_eq_true, if_false, if_true] at h1 h2
      simp only [jobIds, List.map_cons, List.mem_cons] at h2
      rcases h2 with rfl | h2
      · exact h.1 (by simpa [jobIds] using jobIds_filter_subset _ rest _ h1)
      · exact ih h.2 i h1 h2
    | some rc =>
      simp only [List.filter_cons, hp, Option.isSome_some, Option.isNone_some,
        Bool.false_eq_true, if_false, if_true] at h1 h2
      simp only [jobIds, List.map_cons, List.mem_cons] at h1
      rcases h1 with rfl | h1
      · exact h.1 (by simpa [jobIds] using jobIds_filter_subset _ rest _ h2)
      · exact ih h.2 i h1 h2

/-- C9: background job ids are allocated from a monotonic counter starting
at 1 and are never reused within one session (the allocation log over any
history of registrations and sweeps is exactly `1, 2, 3, ...`, hence
duplicate-free); one sweep removes each completed job exactly once (no
reported id remains in the table), and a subsequent sweep can never
re-report an id reported by the previous one. -/
theorem claim_C9_job_table (ops : List JobOp) (poll poll' : Nat → Option Int) :
    (applyJobOps ([], 1) ops).2 = List.range' 1 (countRegs ops) ∧
    ((applyJobOps ([], 1) ops).2).Nodup ∧
    (∀ i ∈ reportedIds (reapJobs poll (applyJobOps ([], 1) ops).1.1).1,
      i ∉ jobIds (reapJobs poll (applyJobOps ([], 1) ops).1.1).2) ∧
    (∀ i ∈ reportedIds (reapJobs poll (applyJobOps ([], 1) ops).1.1).1,
      i ∉ reportedIds (reapJobs poll' (reapJobs poll (applyJobOps ([], 1) ops).1.1).2).1) := by
  have hwf : tableWF (applyJobOps ([], 1) ops).1.1 (applyJobOps ([], 1) ops).1.2 :=
    tableWF_apply ops [] 1 ⟨by simp [jobIds], by simp [jobIds]⟩
  have hdisj : ∀ i ∈ reportedIds (reapJobs poll (applyJobOps ([], 1) ops).1.1).1,
      i ∉ jobIds (reapJobs poll (applyJobOps ([], 1) ops).1.1).2 := by
    intro i hi hmem
    rw [reportedIds_reap] at hi
    exact reap_partition_disjoint poll _ hwf.1 i hi hmem
  refine ⟨applyJobOps_log ops [] 1, ?_, hdisj, ?_⟩
  · rw [applyJobOps_log ops [] 1]
    exact List.nodup_range' 1 _
  · intro i hi hmem
    rw [reportedIds_reap] at hmem
    exact hdisj i hi (jobIds_filter_subset _ _ i hmem)

/-- Witness for C9 at a concrete history: two registrations get ids 1 and 2;
a sweep that finds both terminated reports id 2 and removes it from the
table. -/
theorem claim_C9_job_table_witness :
    2 ∈ reportedIds (reapJobs (fun _ => some 0)
      (applyJobOps ([], 1) [JobOp.register 11 "a", JobOp.register 12 "b"]).1.1).1 ∧
    2 ∉ jobIds (reapJobs (fun _ => some 0)
      (applyJobOps ([], 1) [JobOp.register 11 "a", JobOp.register 12 "b"]).1.1).2 :=
  ⟨by decide,
   (claim_C9_job_table [JobOp.register 11 "a", JobOp.register 12 "b"]
      (fun _ => some 0) (fun _ => some 0)).2.2.1 2 (by decide)⟩

/-- Alias substitution itself never spawns anything: its only observable
action is the expansion message. -/
theorem segProcessedText_no_spawn (al : List (String × String))
    (prev : Option (Option Separator)) (text : String) :
    ∀ e ∈ (segProcessedText al prev text).2, isSpawnEvent e = false := by
  unfold segProcessedText aliasApply
  repeat' split
  all_goals simp [isSpawnEvent]

/-- C10: whenever the pipeline loop reaches a segment (skip flag clear)
whose alias-expanded text shell-splits to an empty token list, it reports
the `Empty command segment` syntax error and `break`s: processing of the
rest of the line stops, so no later segment is translated or executed. -/
theorem claim_C10_empty_segment_aborts (O : Oracles) (total : Nat) (st : ShellSt)
    (ls : LoopSt) (prev : Option (Option Separator)) (text : String)
    (sep : Option Separator) (post : List (String × Option Separator))
    (_htotal : 1 < total)
    (h0 : ls.failedForAnd = false)
    (hs : O.split (segProcessedText st.aliases prev text).1 = some []) :
    runSegs O total st ls prev ((text, sep) :: post) =
      ⟨st, { ls with failedForAnd := true },
       (segProcessedText st.aliases prev text).2 ++ [Event.errEmptySegment], true⟩ := by
  have hstep : segStep O total st ls prev text sep post.isEmpty =
      ⟨st, { ls with failedForAnd := true },
       (segProcessedText st.aliases prev text).2 ++ [Event.errEmptySegment], true⟩ := by
    simp [segStep, h0, hs]
  simp [runSegs, hstep]

/-- Witness for C10: on the two-segment line `nosuch ; after` where the
first segment expands to the empty string, only the syntax error is
reported and the `after` segment is never processed. -/
theorem claim_C10_empty_segment_witness :
    runSegs { O0 with split := fun _ => some [] } 2 st0 initLoopSt none
      [("nosuch", some Separator.semicolon), ("after", none)] =
      ⟨st0, { initLoopSt with failedForAnd := true },
       (segProcessedText st0.aliases none "nosuch").2 ++ [Event.errEmptySegment], true⟩ :=
  claim_C10_empty_segment_aborts { O0 with split := fun _ => some [] } 2 st0
    initLoopSt none "nosuch" (some Separator.semicolon) [("after", none)]
    (by decide) (by decide) (by decide)

/-- C3 (amended): when translation of a segment requests elevation and the
segment is not alone-and-foreground on its line (the line has several
segments, or the segment is piped or backgrounded), the loop stops at that
segment with the elevation error: the elevated segment's pipeline group and
every later segment are never executed, no process is spawned from that
point on, and the session state is untouched; pipeline groups that finished
executing earlier on the same line are unaffected. -/
theorem claim_C3_elevation_rejected_before_spawn (O : Oracles) (total : Nat)
    (st : ShellSt) (ls : LoopSt) (prev : Option (Option Separator)) (text : String)
    (sep : Option Separator) (post : List (String × Option Separator))
    (c : String) (as : List String)
    (h0 : ls.failedForAnd = false)
    (hs : O.split (segProcessedText st.aliases prev text).1 = some (c :: as))
    (hb : ¬ pyLower c ∈ complexDisallowed)
    (he : (O.translate c as).2 = true)
    (hctx : 1 < total ∨ sep = some Separator.background ∨
      prev = some (some Separator.pipe) ∨ sep = some Separator.pipe) :
    runSegs O total st ls prev ((text, sep) :: post) =
      ⟨st, { ls with pipeOriginal := ls.pipeOriginal ++ [(segProcessedText st.aliases prev text).1], needsElevOverall := true, failedForAnd := true },
       (segProcessedText st.aliases prev text).2 ++
         [Event.translated c as, Event.errElevationDisallowed c], true⟩ ∧
    (∀ e ∈ (runSegs O total st ls prev ((text, sep) :: post)).events,
      isSpawnEvent e = false) := by
  have hcond : (O.translate c as).2 = true ∧ (1 < total ∨ sep = some Separator.background ∨
      prev = some (some Separator.pipe) ∨ sep = some Separator.pipe) := ⟨he, hctx⟩
  have hnb : ¬((1 < total ∨ sep = some Separator.pipe ∨ prev = some (some Separator.pipe))
      ∧ pyLower c ∈ complexDisallowed) := fun h => hb h.2
  have hstep : segStep O total st ls prev text sep post.isEmpty =
      ⟨st, { ls with pipeOriginal := ls.pipeOriginal ++ [(segProcessedText st.aliases prev text).1], needsElevOverall := true, failedForAnd := true },
       (segProcessedText st.aliases prev text).2 ++
         [Event.translated c as, Event.errElevationDisallowed c], true⟩ := by
    simp [segStep, h0, hs, hnb, he, hcond]
  have hrun : runSegs O total st ls prev ((text, sep) :: post) =
      ⟨st, { ls with pipeOriginal := ls.pipeOriginal ++ [(segProcessedText st.aliases prev text).1], needsElevOverall := true, failedForAnd := true },
       (segProcessedText st.aliases prev text).2 ++
         [Event.translated c as, Event.errElevationDisallowed c], true⟩ := by
    simp [runSegs, hstep]
  refine ⟨hrun, ?_⟩
  intro e he'
  rw [hrun] at he'
  simp only [List.mem_append, List.mem_cons, List.mem_singleton] at he'
  rcases he' with h' | h' | h'
  · exact segProcessedText_no_spawn st.aliases prev text e h'
  all_goals simp_all [isSpawnEvent]

/-- Witness for C3 (amended): `sudocmd` sequenced after another segment is
rejected with no spawn. -/
theorem claim_C3_elevation_witness :
    runSegs O1 2 st0 initLoopSt (some (some Separator.semicolon)) [("sudocmd", none)] =
      ⟨st0, { initLoopSt with pipeOriginal := initLoopSt.pipeOriginal ++ [(segProcessedText st0.aliases (some (some Separator.semicolon)) "sudocmd").1], needsElevOverall := true, failedForAnd := true },
       (segProcessedText st0.aliases (some (some Separator.semicolon)) "sudocmd").2 ++
         [Event.translated "sudocmd" [], Event.errElevationDisallowed "sudocmd"], true⟩ :=
  (claim_C3_elevation_rejected_before_spawn O1 2 st0 initLoopSt
    (some (some Separator.semicolon)) "sudocmd" none [] "sudocmd" []
    (by decide) (by decide) (by decide) (by decide) (Or.inl (by decide))).1

/-- Every branch of `segStep` (when the skip flag is clear) emits the
alias-expansion events first. -/
theorem segStep_events_prefix (O : Oracles) (total : Nat) (st : ShellSt)
    (ls : LoopSt) (prev : Option (Option Separator)) (text : String)
    (sep : Option Separator) (isLast : Bool) (h0 : ls.failedForAnd = false) :
    ∃ t, (segStep O total st ls prev text sep isLast).events =
      (segProcessedText st.aliases prev text).2 ++ t := by
  simp only [segStep, h0]
  repeat' split
  all_goals first
    | exact ⟨_, rfl⟩
    | simp_all

/-- When the segment shell-splits to `command :: args` and survives the
complex-sequence built-in check, the event right after the alias events is
the call into the translator registry with exactly those tokens. -/
theorem segStep_events_translated (O : Oracles) (total : Nat) (st : ShellSt)
    (ls : LoopSt) (prev : Option (Option Separator)) (text : String)
    (sep : Option Separator) (isLast : Bool) (c : String) (as : List String)
    (h0 : ls.failedForAnd = false)
    (hs : O.split (segProcessedText st.aliases prev text).1 = some (c :: as))
    (hb : ¬((1 < total ∨ sep = some Separator.pipe ∨ prev = some (some Separator.pipe))
      ∧ pyLower c ∈ complexDisallowed)) :
    ∃ t, (segStep O total st ls prev text sep isLast).events =
      (segProcessedText st.aliases prev text).2 ++ Event.translated c as :: t := by
  simp only [segStep, h0, hs]
  rw [if_neg hb]
  repeat' split
  all_goals first
    | exact ⟨_, rfl⟩
    | simp_all

/-- A segment preceded by a pipe gets no alias substitution. -/
theorem segProcessedText_pipe (al : List (String × String)) (text : String) :
    segProcessedText al (some (some Separator.pipe)) text = (text, []) := by
  simp [segProcessedText]

/-- A segment not preceded by a pipe goes through `aliasApply`. -/
theorem segProcessedText_canAlias (al : List (String × String))
    (prev : Option (Option Separator)) (text : String)
    (h : prev ≠ some (some Separator.pipe)) :
    segProcessedText al prev text = aliasApply al text := by
  unfold segProcessedText
  rcases prev with _ | ps
  · simp
  · have hps : ps ≠ some Separator.pipe := fun hh => h (by rw [hh])
    simp [hps]

/-- C6 (amended): alias substitution is applied to the first segment and to
every segment whose preceding separator is not a pipe; only a segment
preceded by a pipe keeps its first token unchanged on the way to
translation.  Part one: after a pipe, translation receives the split of the
raw segment text (no alias substitution, even when the first token is a
defined alias).  Part two: after any non-pipe separator (or for the first
segment), a matching alias IS expanded and announced. -/
theorem claim_C6_alias_applied_when_not_piped (O : Oracles) (total : Nat)
    (st : ShellSt) (ls : LoopSt) (text : String) (sep : Option Separator)
    (isLast : Bool) :
    (∀ c as, ls.failedForAnd = false → O.split text = some (c :: as) →
      ¬ pyLower c ∈ complexDisallowed →
      (segStep O total st ls (some (some Separator.pipe)) text sep isLast).events.head? =
        some (Event.translated c as)) ∧
    (∀ prev expansion, ls.failedForAnd = false → prev ≠ some (some Separator.pipe) →
      lookupAlias st.aliases (pyFirstToken text) = some expansion →
      (segStep O total st ls prev text sep isLast).events.head? =
        some (Event.aliasExpanded (pyFirstToken text) (aliasApply st.aliases text).1)) := by
  constructor
  · intro c as h0 hsp hb
    obtain ⟨t, ht⟩ := segStep_events_translated O total st ls
      (some (some Separator.pipe)) text sep isLast c as h0
      (by rw [segProcessedText_pipe]; exact hsp) (fun h => hb h.2)
    rw [ht, segProcessedText_pipe]
    rfl
  · intro prev expansion h0 hprev hl
    obtain ⟨t, ht⟩ := segStep_events_prefix O total st ls prev text sep isLast h0
    rw [ht, segProcessedText_canAlias st.aliases prev text hprev]
    unfold aliasApply
    rw [hl]
    rfl

/-- Witness for C6 (amended): with the alias `ll -> ls -l` defined, a piped
`ll` segment reaches translation unexpanded, while a semicolon-preceded
`ll` segment is announced as alias-expanded. -/
theorem claim_C6_alias_witness :
    (segStep O0 2 st0 initLoopSt (some (some Separator.pipe)) "ll" none true).events.head? =
      some (Event.translated "ll" []) ∧
    (segStep O0 2 st0 initLoopSt (some (some Separator.semicolon)) "ll" none true).events.head? =
      some (Event.aliasExpanded (pyFirstToken "ll") (aliasApply st0.aliases "ll").1) :=
  ⟨(claim_C6_alias_applied_when_not_piped O0 2 st0 initLoopSt "ll" none true).1
      "ll" [] (by decide) (by decide) (by decide),
   (claim_C6_alias_applied_when_not_piped O0 2 st0 initLoopSt "ll" none true).2
      (some (some Separator.semicolon)) "ls -l" (by decide) (by decide) (by decide)⟩

theorem intercalate_singleton (s a : String) : String.intercalate s [a] = a := rfl

/-- A segment in skip mode (`pipeline_failed_for_and` set) is passed over
without any event; a semicolon separator clears the flag. -/
theorem segStep_skip (O : Oracles) (total : Nat) (st : ShellSt) (ls : LoopSt)
    (prev : Option (Option Separator)) (text : String) (sep : Option Separator)
    (isLast : Bool) (h : ls.failedForAnd = true) :
    segStep O total st ls prev text sep isLast =
      ⟨st, { ls with failedForAnd :=
          if sep = some Separator.semicolon then false else ls.failedForAnd },
       [], false⟩ := by
  simp [segStep, h]

/-- A segment that translates to a plain runnable string and closes its
(one-element) pipeline group executes it in the foreground and applies the
conditional-flag update. -/
theorem segStep_runnable_fg (O : Oracles) (total : Nat) (st : ShellSt)
    (ls : LoopSt) (prev : Option (Option Separator)) (text : String)
    (sep : Option Separator) (isLast : Bool) (c : String) (as : List String)
    (t : String)
    (h0 : ls.failedForAnd = false)
    (hs : O.split (segProcessedText st.aliases prev text).1 = some (c :: as))
    (hb : ¬((1 < total ∨ sep = some Separator.pipe ∨ prev = some (some Separator.pipe))
      ∧ pyLower c ∈ complexDisallowed))
    (ht : O.translate c as = (some t, false))
    (hm1 : pyStartsWith t simMarker = false)
    (hm2 : pyStartsWith t noExecMarker = false)
    (hne : ¬ t = "")
    (hpip : ls.pipeTranslated = [])
    (hsepPipe : ¬ sep = some Separator.pipe)
    (hsepBg : ¬(sep = some Separator.background ∧ isLast = true))
    (helev : ls.needsElevOverall = false) :
    segStep O total st ls prev text sep isLast =
      ⟨st, condUpdate { ls with lastReturnCode := O.exec t, pipeTranslated := [], pipeOriginal := [], needsElevOverall := false } sep,
       (segProcessedText st.aliases prev text).2 ++
         Event.translated c as :: [Event.execFg t st.shellEnv], false⟩ := by
  simp [segStep, h0, hs, hb, ht, hm1, hm2, execPhase, hne, hpip, hsepPipe,
    hsepBg, helev, intercalate_singleton]
  all_goals
    intro h hc
    exact hb ⟨h.elim Or.inl (fun h2 => Or.inr (Or.inr h2)), hc⟩

/-- C1: for a line `A && B` (segments `(A, And)`, `(B, None)`) where `A`
translates to a runnable command whose execution exits non-zero, `B` is
never translated and never executed — the whole trace consists of `A`'s
events only — and the Conditional Controller's skip flag
(`pipeline_failed_for_and`) ends the line set.  For a line `A ; B`, `B` is
translated and executed regardless of `A`'s exit status (no hypothesis
constrains `O.exec` on `A`'s command). -/
theorem claim_C1_and_shortcircuit_semicolon_continues (O : Oracles)
    (st : ShellSt) (A B : String) :
    (∀ cA asA tA,
      O.split (segProcessedText st.aliases none A).1 = some (cA :: asA) →
      ¬ pyLower cA ∈ complexDisallowed →
      O.translate cA asA = (some tA, false) →
      pyStartsWith tA simMarker = false →
      pyStartsWith tA noExecMarker = false →
      ¬ tA = "" →
      ¬ O.exec tA = 0 →
      runSegs O 2 st initLoopSt none [(A, some Separator.andSep), (B, none)] =
        ⟨st, { initLoopSt with lastReturnCode := O.exec tA, failedForAnd := true },
         (segProcessedText st.aliases none A).2 ++
           Event.translated cA asA :: [Event.execFg tA st.shellEnv], false⟩) ∧
    (∀ cA asA tA cB asB tB,
      O.split (segProcessedText st.aliases none A).1 = some (cA :: asA) →
      ¬ pyLower cA ∈ complexDisallowed →
      O.translate cA asA = (some tA, false) →
      pyStartsWith tA simMarker = false →
      pyStartsWith tA noExecMarker = false →
      ¬ tA = "" →
      O.split (segProcessedText st.aliases (some (some Separator.semicolon)) B).1 = some (cB :: asB) →
      ¬ pyLower cB ∈ complexDisallowed →
      O.translate cB asB = (some tB, false) →
      pyStartsWith tB simMarker = false →
      pyStartsWith tB noExecMarker = false →
      ¬ tB = "" →
      runSegs O 2 st initLoopSt none [(A, some Separator.semicolon), (B, none)] =
        ⟨st, { initLoopSt with lastReturnCode := O.exec tB },
         ((segProcessedText st.aliases none A).2 ++
           Event.translated cA asA :: [Event.execFg tA st.shellEnv]) ++
         ((segProcessedText st.aliases (some (some Separator.semicolon)) B).2 ++
           Event.translated cB asB :: [Event.execFg tB st.shellEnv]), false⟩) := by
  constructor
  · intro cA asA tA hsA hbA htA hm1 hm2 hne hex
    have hA := segStep_runnable_fg O 2 st initLoopSt none A (some Separator.andSep)
      false cA asA tA rfl hsA (fun hh => hbA hh.2) htA hm1 hm2 hne rfl
      (by simp) (by simp) rfl
    have hcu : condUpdate { initLoopSt with lastReturnCode := O.exec tA, pipeTranslated := [], pipeOriginal := [], needsElevOverall := false } (some Separator.andSep) =
        { lastReturnCode := O.exec tA, failedForAnd := true, pipeTranslated := [], pipeOriginal := [], needsElevOverall := false } := by
      simp [condUpdate, hex, initLoopSt]
    rw [hcu] at hA
    have hB := segStep_skip O 2 st
      { lastReturnCode := O.exec tA, failedForAnd := true, pipeTranslated := [], pipeOriginal := [], needsElevOverall := false }
      (some (some Separator.andSep)) B none true rfl
    simp only [initLoopSt] at hA
    simp [runSegs, hA, hB, initLoopSt]
  · intro cA asA tA cB asB tB hsA hbA htA hmA1 hmA2 hneA hsB hbB htB hmB1 hmB2 hneB
    have hA := segStep_runnable_fg O 2 st initLoopSt none A (some Separator.semicolon)
      false cA asA tA rfl hsA (fun hh => hbA hh.2) htA hmA1 hmA2 hneA rfl
      (by simp) (by simp) rfl
    have hcu : condUpdate { initLoopSt with lastReturnCode := O.exec tA, pipeTranslated := [], pipeOriginal := [], needsElevOverall := false } (some Separator.semicolon) =
        { lastReturnCode := O.exec tA, failedForAnd := false, pipeTranslated := [], pipeOriginal := [], needsElevOverall := false } := by
      simp [condUpdate, initLoopSt]
    rw [hcu] at hA
    have hB := segStep_runnable_fg O 2 st
      { lastReturnCode := O.exec tA, failedForAnd := false, pipeTranslated := [], pipeOriginal := [], needsElevOverall := false }
      (some (some Separator.semicolon)) B none true cB asB tB
      rfl hsB (fun hh => hbB hh.2) htB hmB1 hmB2 hneB rfl
      (by simp) (by simp) rfl
    have hcu2 : condUpdate { lastReturnCode := O.exec tB, failedForAnd := false, pipeTranslated := ([] : List String), pipeOriginal := ([] : List String), needsElevOverall := false } (none : Option Separator) =
        { lastReturnCode := O.exec tB, failedForAnd := false, pipeTranslated := [], pipeOriginal := [], needsElevOverall := false } := by
      simp [condUpdate]
    simp only [initLoopSt] at hA
    simp [runSegs, hA, hB, hcu2, initLoopSt]

/-- Witness for C1 at concrete inputs: `cmda && cmdb` with `cmda` exiting 1
short-circuits `cmdb`; `cmda ; cmdb` runs both. -/
theorem claim_C1_witness :
    runSegs O2 2 st0 initLoopSt none [("cmda", some Separator.andSep), ("cmdb", none)] =
      ⟨st0, { initLoopSt with lastReturnCode := O2.exec "cmda", failedForAnd := true },
       (segProcessedText st0.aliases none "cmda").2 ++
         Event.translated "cmda" [] :: [Event.execFg "cmda" st0.shellEnv], false⟩ ∧
    runSegs O2 2 st0 initLoopSt none [("cmda", some Separator.semicolon), ("cmdb", none)] =
      ⟨st0, { initLoopSt with lastReturnCode := O2.exec "cmdb" },
       ((segProcessedText st0.aliases none "cmda").2 ++
         Event.translated "cmda" [] :: [Event.execFg "cmda" st0.shellEnv]) ++
       ((segProcessedText st0.aliases (some (some Separator.semicolon)) "cmdb").2 ++
         Event.translated "cmdb" [] :: [Event.execFg "cmdb" st0.shellEnv]), false⟩ := by
  constructor
  · exact (claim_C1_and_shortcircuit_semicolon_continues O2 st0 "cmda" "cmdb").1
      "cmda" [] "cmda" (by decide) (by decide) (by decide) (by decide) (by decide)
      (by decide) (by decide)
  · exact (claim_C1_and_shortcircuit_semicolon_continues O2 st0 "cmda" "cmdb").2
      "cmda" [] "cmda" "cmdb" [] "cmdb" (by decide) (by decide) (by decide)
      (by decide) (by decide) (by decide) (by decide) (by decide) (by decide)
      (by decide) (by decide) (by decide)

/-- C6 counterexample: on the line `x ; ll` the second segment `ll`
(preceded by a semicolon, not a pipe) IS alias-expanded: translation
receives `ls ["-l"]`, not `ll`, refuting "alias substitution is applied
only to the first segment of the whole input line". -/
theorem claim_C6_counterexample :
    parse_command_line "x ; ll" = [("x", some Separator.semicolon), ("ll", none)] ∧
    run_shell_iteration O0 st0 "x ; ll" =
      (st0, [Event.translated "x" [], Event.execFg "x" [("PATH", "C:bin")],
             Event.aliasExpanded "ll" "ls -l", Event.translated "ls" ["-l"],
             Event.execFg "ls -l" [("PATH", "C:bin")]], Outcome.continueLoop) := by
  refine ⟨by decide, by decide⟩

/-- C3 counterexample: on the line `x ; sudocmd` (whose second segment's
translation requests elevation), the first segment's external process IS
spawned before the elevation rejection happens, refuting "the line is
rejected with an error before any external process is spawned, with zero
side effects". -/
theorem claim_C3_counterexample :
    run_shell_iteration O1 st0 "x ; sudocmd" =
      (st0, [Event.translated "x" [], Event.execFg "x" [("PATH", "C:bin")],
             Event.translated "sudocmd" [], Event.errElevationDisallowed "sudocmd"],
       Outcome.continueLoop) ∧
    isSpawnEvent (Event.execFg "x" [("PATH", "C:bin")]) = true := by
  refine ⟨by decide, by decide⟩
/-- `execPhase` touches neither environment map and stamps every spawn it
performs with the current `shell_environment`. -/
theorem execPhase_env (O : Oracles) (total : Nat) (st : ShellSt) (ls : LoopSt)
    (sep : Option Separator) (isLast simFlag : Bool) :
    (execPhase O total st ls sep isLast simFlag).st.shellEnv = st.shellEnv ∧
    (execPhase O total st ls sep isLast simFlag).st.realEnv = st.realEnv ∧
    ∀ e ∈ (execPhase O total st ls sep isLast simFlag).events,
      eventSpawnEnv e = none ∨ eventSpawnEnv e = some st.shellEnv := by
  unfold execPhase
  dsimp only
  repeat' split
  all_goals refine ⟨rfl, rfl, ?_⟩
  all_goals intro e he
  all_goals fin_cases he <;> simp [eventSpawnEnv]

/-- Alias substitution spawns nothing. -/
theorem aliasApply_spawnEnv (al : List (String × String)) (text : String) :
    ∀ e ∈ (aliasApply al text).2, eventSpawnEnv e = none := by
  unfold aliasApply
  dsimp only
  repeat' split
  all_goals intro e he
  all_goals fin_cases he <;> rfl

theorem segProcessedText_spawnEnv (al : List (String × String))
    (prev : Option (Option Separator)) (text : String) :
    ∀ e ∈ (segProcessedText al prev text).2, eventSpawnEnv e = none := by
  unfold segProcessedText
  dsimp only
  repeat' split
  all_goals first
    | exact aliasApply_spawnEnv al text
    | (intro e he; exact absurd he (List.not_mem_nil e))

/-- One pipeline-loop step touches neither environment map, and every spawn
it performs carries the entry `shell_environment`. -/
theorem segStep_env (O : Oracles) (total : Nat) (st : ShellSt) (ls : LoopSt)
    (prev : Option (Option Separator)) (text : String) (sep : Option Separator)
    (isLast : Bool) :
    (segStep O total st ls prev text sep isLast).st.shellEnv = st.shellEnv ∧
    (segStep O total st ls prev text sep isLast).st.realEnv = st.realEnv ∧
    ∀ e ∈ (segStep O total st ls prev text sep isLast).events,
      eventSpawnEnv e = none ∨ eventSpawnEnv e = some st.shellEnv := by
  unfold segStep
  dsimp only
  repeat' split
  all_goals refine ⟨?_, ?_, ?_⟩
  all_goals first
    | rfl
    | exact (execPhase_env O total st _ sep isLast _).1
    | exact (execPhase_env O total st _ sep isLast _).2.1
    | (intro e he
       first
         | exact absurd he (List.not_mem_nil e)
         | (rcases List.mem_append.1 he with h | h
            · exact Or.inl (segProcessedText_spawnEnv _ _ _ e h)
            · rcases List.mem_cons.1 h with rfl | h2
              · exact Or.inl rfl
              · first
                  | exact (execPhase_env O total st _ sep isLast _).2.2 e h2
                  | (fin_cases h2 <;> simp [eventSpawnEnv])))

/-- The whole pipeline loop preserves both environment maps and stamps
every spawn with the entry `shell_environment`. -/
theorem runSegs_env (O : Oracles) (total : Nat)
    (l : List (String × Option Separator)) : ∀ st ls prev,
    (runSegs O total st ls prev l).st.shellEnv = st.shellEnv ∧
    (runSegs O total st ls prev l).st.realEnv = st.realEnv ∧
    ∀ e ∈ (runSegs O total st ls prev l).events,
      eventSpawnEnv e = none ∨ eventSpawnEnv e = some st.shellEnv := by
  induction l with
  | nil =>
    intro st ls prev
    exact ⟨rfl, rfl, fun e he => absurd he (List.not_mem_nil e)⟩
  | cons hd tl ih =>
    intro st ls prev
    obtain ⟨text, sep⟩ := hd
    have hseg := segStep_env O total st ls prev text sep tl.isEmpty
    by_cases hbk : (segStep O total st ls prev text sep tl.isEmpty).broke = true
    · refine ⟨?_, ?_, ?_⟩
      · simpa [runSegs, hbk] using hseg.1
      · simpa [runSegs, hbk] using hseg.2.1
      · intro e he
        simp only [runSegs, hbk, if_true] at he
        exact hseg.2.2 e he
    · have hih := ih (segStep O total st ls prev text sep tl.isEmpty).st
        (segStep O total st ls prev text sep tl.isEmpty).ls (some sep)
      refine ⟨?_, ?_, ?_⟩
      · simpa [runSegs, hbk] using hih.1.trans hseg.1
      · simpa [runSegs, hbk] using hih.2.1.trans hseg.2.1
      · intro e he
        simp only [runSegs, hbk, Bool.false_eq_true, if_false, List.mem_append] at he
        rcases he with h | h
        · exact hseg.2.2 e h
        · rcases hih.2.2 e h with h' | h'
          · exact Or.inl h'
          · exact Or.inr (h'.trans (by rw [hseg.1]))

/-- Every built-in leaves the real process environment untouched (it only
rewrites `shell_environment` or the alias map) and spawns nothing. -/
theorem runBuiltin_env (O : Oracles) (st : ShellSt) (cmd : String)
    (args : List String) :
    (runBuiltin O st cmd args).1.realEnv = st.realEnv ∧
    ∀ e ∈ (runBuiltin O st cmd args).2.2.1, eventSpawnEnv e = none := by
  by_cases h1 : cmd = "help"
  · simp [runBuiltin, h1, eventSpawnEnv]
  by_cases h2 : cmd = "exit" ∨ cmd = "quit"
  · simp [runBuiltin, h1, h2, eventSpawnEnv]
  by_cases h3 : cmd = "cd"
  · rcases args with _ | ⟨a, rest⟩
    · rcases hc : O.chdir (O.expandvars O.home) with _ | w <;>
        simp [runBuiltin, h1, h2, h3, hc, eventSpawnEnv]
    · rcases hc : O.chdir (O.expandvars a) with _ | w <;>
        simp [runBuiltin, h1, h2, h3, hc, eventSpawnEnv]
  by_cases h4 : cmd = "history"
  · simp [runBuiltin, h1, h2, h3, h4, eventSpawnEnv]
  by_cases h5 : cmd = "alias"
  · rcases args with _ | ⟨a, rest⟩
    · simp [runBuiltin, h1, h2, h3, h4, h5, eventSpawnEnv]
    · by_cases hq : pyHasChar a '=' = true
      · simp [runBuiltin, h1, h2, h3, h4, h5, hq, eventSpawnEnv]
      · by_cases hl : (lookupAlias st.aliases a).isSome = true <;>
          simp [runBuiltin, h1, h2, h3, h4, h5, hq, hl, eventSpawnEnv]
  by_cases h6 : cmd = "unalias"
  · rcases args with _ | ⟨a, rest⟩
    · simp [runBuiltin, h1, h2, h3, h4, h5, h6, eventSpawnEnv]
    · by_cases hl : (lookupAlias st.aliases a).isSome = true <;>
        simp [runBuiltin, h1, h2, h3, h4, h5, h6, hl, eventSpawnEnv]
  by_cases h7 : cmd = "export"
  · rcases args with _ | ⟨a, rest⟩
    · simp [runBuiltin, h1, h2, h3, h4, h5, h6, h7, eventSpawnEnv]
    · by_cases hq : pyHasChar a '=' = true <;>
        simp [runBuiltin, h1, h2, h3, h4, h5, h6, h7, hq, eventSpawnEnv]
  by_cases h8 : cmd = "unset"
  · rcases args with _ | ⟨a, rest⟩
    · simp [runBuiltin, h1, h2, h3, h4, h5, h6, h7, h8, eventSpawnEnv]
    · by_cases hg : (envGet st.shellEnv a).isSome = true <;>
        simp [runBuiltin, h1, h2, h3, h4, h5, h6, h7, h8, hg, eventSpawnEnv]
  · simp [runBuiltin, h1, h2, h3, h4, h5, h6, h7, h8, eventSpawnEnv]

/-- The job sweep reports completions only; no spawn events. -/
theorem reapJobs_spawnEnv (poll : Nat → Option Int)
    (jobs : List (Nat × Nat × String)) :
    ∀ e ∈ (reapJobs poll jobs).1, eventSpawnEnv e = none := by
  intro e he
  unfold reapJobs at he
  rcases List.mem_filterMap.1 he with ⟨j, _, hmap⟩
  rcases Option.map_eq_some'.1 hmap with ⟨rc, _, rfl⟩
  rfl

/-- A fall-through from the single-command check carries only alias
events. -/
theorem singleCheck_inl_env (O : Oracles) (st : ShellSt) (text : String)
    (sep : Option Separator) (evs : List Event)
    (h : singleCheck O st text sep = Sum.inl evs) :
    ∀ e ∈ evs, eventSpawnEnv e = none := by
  unfold singleCheck at h
  dsimp only at h
  repeat' split at h
  all_goals first
    | (rw [Sum.inl.injEq] at h
       subst h
       exact aliasApply_spawnEnv st.aliases text)
    | simp at h

/-- A line fully handled by the single-command check preserves the real
environment and spawns nothing. -/
theorem singleCheck_inr_env (O : Oracles) (st : ShellSt) (text : String)
    (sep : Option Separator) (r : ShellSt × List Event × Outcome)
    (h : singleCheck O st text sep = Sum.inr r) :
    r.1.realEnv = st.realEnv ∧ ∀ e ∈ r.2.1, eventSpawnEnv e = none := by
  unfold singleCheck at h
  dsimp only at h
  repeat' split at h
  all_goals first
    | (rw [Sum.inr.injEq] at h
       subst h
       constructor
       · first
           | rfl
           | exact (runBuiltin_env O st _ _).1
       · intro e he
         first
           | (fin_cases he <;> rfl)
           | (rcases List.mem_append.1 he with h1 | h1
              · exact aliasApply_spawnEnv st.aliases text e h1
              · first
                  | (fin_cases h1 <;> rfl)
                  | exact (runBuiltin_env O st _ _).2 e h1))
    | simp at h

/-- C8: `shell_environment` starts as a copy of the real process
environment; processing any input line leaves the real process environment
unchanged (built-ins mutate only the override map); and every child-command
spawn on a line receives exactly the override map as it was at the start of
that line — never the ambient process environment. -/
theorem claim_C8_environment_overrides :
    (∀ (realEnv : Env) (aliases : List (String × String)),
      (initShellState realEnv aliases).shellEnv = (initShellState realEnv aliases).realEnv) ∧
    (∀ (O : Oracles) (st : ShellSt) (parsed : List (String × Option Separator)),
      (run_shell_line O st parsed).1.realEnv = st.realEnv) ∧
    (∀ (O : Oracles) (st : ShellSt) (parsed : List (String × Option Separator))
      (e : Event) (env : Env), e ∈ (run_shell_line O st parsed).2.1 →
      eventSpawnEnv e = some env → env = st.shellEnv) := by
  refine ⟨fun realEnv aliases => rfl, ?_, ?_⟩
  · intro O st parsed
    rcases parsed with _ | ⟨⟨text, sep⟩, tl⟩
    · rfl
    rcases tl with _ | ⟨hd2, tl2⟩
    · rcases hsc : singleCheck O st text sep with evs | r
      · simp only [run_shell_line, hsc]
        exact (runSegs_env O 1 [(text, sep)] st initLoopSt none).2.1
      · simp only [run_shell_line, hsc]
        exact (singleCheck_inr_env O st text sep r hsc).1
    · simp only [run_shell_line]
      exact (runSegs_env O _ _ st initLoopSt none).2.1
  · intro O st parsed e env he henv
    rcases parsed with _ | ⟨⟨text, sep⟩, tl⟩
    · exact absurd he (List.not_mem_nil e)
    rcases tl with _ | ⟨hd2, tl2⟩
    · rcases hsc : singleCheck O st text sep with evs | r
      · simp only [run_shell_line, hsc, List.mem_append] at he
        rcases he with (h | h) | h
        · exact absurd henv (by rw [singleCheck_inl_env O st text sep evs hsc e h]; simp)
        · rcases (runSegs_env O 1 [(text, sep)] st initLoopSt none).2.2 e h with h' | h'
          · exact absurd henv (by rw [h']; simp)
          · rw [henv] at h'
            exact Option.some.inj h'
        · exact absurd henv (by rw [reapJobs_spawnEnv O.poll _ e h]; simp)
      · simp only [run_shell_line, hsc] at he
        exact absurd henv (by rw [(singleCheck_inr_env O st text sep r hsc).2 e he]; simp)
    · simp only [run_shell_line, List.mem_append] at he
      rcases he with h | h
      · rcases (runSegs_env O _ _ st initLoopSt none).2.2 e h with h' | h'
        · exact absurd henv (by rw [h']; simp)
        · rw [henv] at h'
          exact Option.some.inj h'
      · exact absurd henv (by rw [reapJobs_spawnEnv O.poll _ e h]; simp)

/-- Witness for C8 at a concrete run: the foreground spawn of `cmda`
receives exactly the override map. -/
theorem claim_C8_witness :
    ([("PATH", "C:bin")] : Env) = st0.shellEnv :=
  claim_C8_environment_overrides.2.2 O0 st0 [("cmda", none)]
    (Event.execFg "cmda" [("PATH", "C:bin")]) [("PATH", "C:bin")]
    (by decide) (by decide)

/-- An element that fails the predicate survives `dropWhile`. -/
theorem mem_dropWhile_of_not (p : Char → Bool) (l : List Char) (x : Char)
    (hx : x ∈ l) (hpx : p x = false) : x ∈ l.dropWhile p := by
  induction l with
  | nil => exact absurd hx (List.not_mem_nil x)
  | cons c t ih =>
    rcases List.mem_cons.1 hx with h | hxt
    · subst h
      rw [List.dropWhile_cons, if_neg (by simp [hpx])]
      exact List.mem_cons_self x t
    · cases hc : p c
      · rw [List.dropWhile_cons, if_neg (by simp [hc])]
        exact List.mem_cons_of_mem c hxt
      · rw [List.dropWhile_cons, if_pos (by simp [hc])]
        exact ih hxt

/-- A list containing a non-whitespace character does not strip to empty. -/
theorem stripChars_ne_nil (l : List Char) (x : Char) (hx : x ∈ l)
    (hq : x.isWhitespace = false) : ¬ stripChars l = [] := by
  intro h
  unfold stripChars at h
  rw [List.reverse_eq_nil_iff, List.dropWhile_eq_nil_iff] at h
  have hx1 : x ∈ (l.dropWhile Char.isWhitespace).reverse :=
    List.mem_reverse.2 (mem_dropWhile_of_not _ l x hx hq)
  have := h x hx1
  rw [hq] at this
  cases this

/-- Finalization with an empty accumulator and a non-blank remainder yields
exactly one separator-free segment. -/
theorem parseFinal_nil_of_ne (cur : List Char) (h : ¬ stripChars cur = []) :
    parseFinal [] cur = [(stripChars cur, none)] := by
  unfold parseFinal
  dsimp only
  rw [if_neg h]
  simp [h]

/-- Finalization with nothing accumulated just re-filters the segments. -/
theorem parseFinal_nil_cur (acc : RawSegs) :
    parseFinal acc [] = acc.filter (fun p => ¬ p.1 = []) := by
  unfold parseFinal
  dsimp only
  rw [if_pos (show stripChars [] = [] from rfl)]

theorem parseLoop_nil (cur : List Char) (sq dq esc : Bool) (acc : RawSegs) :
    parseLoop [] cur sq dq esc acc = parseFinal acc cur := rfl

/-- One unfolding step of the scan loop on a non-empty input. -/
theorem parseLoop_step (c : Char) (cs cur : List Char) (sq dq esc : Bool)
    (acc : RawSegs) :
    parseLoop (c :: cs) cur sq dq esc acc =
      (if c = '\'' ∧ esc = false then parseLoop cs (cur ++ [c]) (!sq) dq false acc
      else if c = '"' ∧ esc = false then parseLoop cs (cur ++ [c]) sq (!dq) false acc
      else if c = '\\' ∧ esc = false then parseLoop cs (cur ++ [c]) sq dq true acc
      else if sq = false ∧ dq = false ∧ esc = false then
        if c = '|' then parseLoop cs [] sq dq false (pushSeg acc cur .pipe)
        else if c = ';' then parseLoop cs [] sq dq false (pushSeg acc cur .semicolon)
        else if c = '&' then ampCase c cs cur sq dq acc
        else parseLoop cs (cur ++ [c]) sq dq false acc
      else parseLoop cs (cur ++ [c]) sq dq false acc) := by
  cases cs <;> rfl

/-- The `&`-step on an exhausted remainder: a trailing background `&`. -/
theorem ampCase_nil (c : Char) (cur : List Char) (sq dq : Bool) (acc : RawSegs) :
    ampCase c [] cur sq dq acc = parseFinal (pushSeg acc cur .background) [] := rfl

/-- The `&`-step on a non-empty remainder, as an `if` chain. -/
theorem ampCase_cons (c d : Char) (t cur : List Char) (sq dq : Bool) (acc : RawSegs) :
    ampCase c (d :: t) cur sq dq acc =
      (if d = '&' then parseLoop t [] sq dq false (pushSeg acc cur .andSep)
      else if (d :: t).all Char.isWhitespace then parseFinal (pushSeg acc cur .background) []
      else parseLoop (d :: t) (cur ++ [c]) sq dq false acc) := rfl

/-- Central scan lemma: over a stretch of input in which the scan
recognizes no operator, `parse_command_line`'s loop appends every character
to the current segment and evolves the quote/escape state exactly as
`scanQ` does. -/
theorem parseLoop_noop (f : List Char) : ∀ (sq dq esc sq' dq' esc' : Bool),
    noUnquotedOp sq dq esc f = true →
    scanQ sq dq esc f = (sq', dq', esc') →
    ∀ (rest cur : List Char) (acc : RawSegs),
    parseLoop (f ++ rest) cur sq dq esc acc =
      parseLoop rest (cur ++ f) sq' dq' esc' acc := by
  induction f with
  | nil =>
    intro sq dq esc sq' dq' esc' _ hs rest cur acc
    simp only [scanQ] at hs
    cases hs
    simp
  | cons c f ih =>
    intro sq dq esc sq' dq' esc' h hs rest cur acc
    rw [List.cons_append]
    simp only [noUnquotedOp] at h
    simp only [scanQ] at hs
    rw [parseLoop_step]
    by_cases h1 : c = '\'' ∧ esc = false
    · rw [if_pos h1] at h hs ⊢
      rw [ih _ _ _ _ _ _ h hs rest (cur ++ [c]) acc]
      simp
    rw [if_neg h1] at h hs ⊢
    by_cases h2 : c = '"' ∧ esc = false
    · rw [if_pos h2] at h hs ⊢
      rw [ih _ _ _ _ _ _ h hs rest (cur ++ [c]) acc]
      simp
    rw [if_neg h2] at h hs ⊢
    by_cases h3 : c = '\\' ∧ esc = false
    · rw [if_pos h3] at h hs ⊢
      rw [ih _ _ _ _ _ _ h hs rest (cur ++ [c]) acc]
      simp
    rw [if_neg h3] at h hs ⊢
    by_cases h4 : sq = false ∧ dq = false ∧ esc = false
    · rw [if_pos h4] at h ⊢
      by_cases hp : c = '|'
      · rw [if_pos hp] at h; cases h
      rw [if_neg hp] at h ⊢
      by_cases hc : c = ';'
      · rw [if_pos hc] at h; cases h
      rw [if_neg hc] at h ⊢
      by_cases ha : c = '&'
      · rw [if_pos ha] at h ⊢
        rcases f with _ | ⟨d, f'⟩
        · rw [if_pos rfl] at h; cases h
        · rw [if_neg (List.cons_ne_nil d f')] at h
          by_cases hd : d = '&'
          · rw [if_pos (by rw [List.head?_cons, hd])] at h; cases h
          · rw [if_neg (by simp [List.head?_cons, hd])] at h
            cases hws : (d :: f').all Char.isWhitespace
            · rw [if_neg (by rw [hws]; decide)] at h
              rw [List.cons_append, ampCase_cons, if_neg hd]
              have hwsr : (d :: (f' ++ rest)).all Char.isWhitespace = false := by
                rw [← List.cons_append, List.all_append, hws, Bool.false_and]
              rw [if_neg (by rw [hwsr]; decide)]
              rw [← List.cons_append]
              rw [ih _ _ _ _ _ _ h hs rest (cur ++ [c]) acc]
              simp
            · rw [if_pos hws] at h
              cases h
      · rw [if_neg ha] at h ⊢
        rw [ih _ _ _ _ _ _ h hs rest (cur ++ [c]) acc]
        simp
    · rw [if_neg h4] at h ⊢
      rw [ih _ _ _ _ _ _ h hs rest (cur ++ [c]) acc]
      simp

/-- Inside an unterminated single quote, no operator is ever recognized. -/
theorem noUnquotedOp_single_quote (dq esc : Bool) (s : List Char)
    (h : s.all (fun c => ¬ c = '\'') = true) :
    noUnquotedOp true dq esc s = true := by
  induction s generalizing dq esc with
  | nil => rfl
  | cons c s' ih =>
    rw [List.all_cons, Bool.and_eq_true] at h
    obtain ⟨h1, h2⟩ := h
    have h1' : ¬ c = '\'' := of_decide_eq_true h1
    simp only [noUnquotedOp]
    rw [if_neg (fun hh => h1' hh.1)]
    by_cases hq : c = '"' ∧ esc = false
    · rw [if_pos hq]; exact ih _ _ h2
    rw [if_neg hq]
    by_cases hb : c = '\\' ∧ esc = false
    · rw [if_pos hb]; exact ih _ _ h2
    rw [if_neg hb]
    rw [if_neg (by simp)]
    exact ih _ _ h2

/-- C4: a line in which the scan recognizes no operator and whose quoting
is balanced parses to exactly one segment, the stripped line, with no
separator; and a line of the same kind followed by a bare trailing `&`
parses to that single segment tagged `Background`. -/
theorem claim_C4_no_ops_single_segment :
    (∀ line : String,
      noUnquotedOp false false false line.toList = true →
      (scanQ false false false line.toList).1 = false →
      (scanQ false false false line.toList).2.1 = false →
      ¬ pyStrip line = "" →
      parse_command_line line = [(pyStrip line, none)]) ∧
    (∀ f w : List Char,
      noUnquotedOp false false false f = true →
      scanQ false false false f = (false, false, false) →
      w.all Char.isWhitespace = true →
      ¬ stripChars f = [] →
      parse_command_line (String.mk (f ++ '&' :: w)) =
        [(String.mk (stripChars f), some Separator.background)]) := by
  constructor
  · intro line h _ _ hne
    have hne' : ¬ stripChars line.toList = [] := by
      intro hh
      refine hne ?_
      unfold pyStrip
      rw [hh]
    rcases hsq : scanQ false false false line.toList with ⟨sq', dq', esc'⟩
    unfold parse_command_line
    have hA := parseLoop_noop line.toList false false false sq' dq' esc' h hsq [] [] []
    rw [List.append_nil] at hA
    rw [hA]
    simp only [List.nil_append]
    rw [parseLoop_nil, parseFinal_nil_of_ne _ hne']
    simp [pyStrip]
  · intro f w h hsq hws hne
    unfold parse_command_line
    have hfin : parseFinal (pushSeg [] f Separator.background) [] =
        [(stripChars f, some Separator.background)] := by
      rw [parseFinal_nil_cur]
      simp [pushSeg, hne]
    have hA := parseLoop_noop f false false false false false false h hsq ('&' :: w) [] []
    rw [show (String.mk (f ++ '&' :: w)).toList = f ++ '&' :: w from rfl, hA]
    simp only [List.nil_append]
    rw [parseLoop_step]
    rw [if_neg (by decide), if_neg (by decide), if_neg (by decide),
      if_pos (by decide), if_neg (by decide), if_neg (by decide),
      if_pos (show ('&' : Char) = '&' from rfl)]
    rcases w with _ | ⟨d, w'⟩
    · rw [ampCase_nil, hfin]
      rfl
    · have hd : ¬ d = '&' := by
        rw [List.all_cons, Bool.and_eq_true] at hws
        intro hh
        rw [hh] at hws
        cases hws.1
      rw [ampCase_cons, if_neg hd, if_pos hws, hfin]
      rfl

/-- Witness for C4 at concrete inputs: `ls -l` and `cmd & `. -/
theorem claim_C4_witness :
    parse_command_line "ls -l" = [(pyStrip "ls -l", none)] ∧
    parse_command_line (String.mk ("cmd".toList ++ '&' :: [' '])) =
      [(String.mk (stripChars "cmd".toList), some Separator.background)] :=
  ⟨claim_C4_no_ops_single_segment.1 "ls -l" (by decide) (by decide) (by decide)
      (by decide),
   claim_C4_no_ops_single_segment.2 "cmd".toList [' '] (by decide) (by decide)
      (by decide) (by decide)⟩

/-- C5 counterexample: lines with an unterminated quote are parsed without
any error: `parse_command_line` returns a normal segment list whose text
silently contains the unbalanced quote, exactly like a well-quoted line
(the claimed SyntaxError does not exist; the imbalance only surfaces later
when `shlex.split` rejects the segment). -/
theorem claim_C5_counterexample :
    parse_command_line "\"abc" = [("\"abc", none)] ∧
    parse_command_line "'" = [("'", none)] ∧
    parse_command_line "ls 'a" = [("ls 'a", none)] := by
  refine ⟨by decide, by decide, by decide⟩

/-- C5 (amended): the line parser never fails on an unterminated quote: a
line opening a single quote that is never closed is returned as one
separator-free segment containing the quote verbatim — the open quote even
suppresses recognition of any `|`, `;`, `&` in the remainder. -/
theorem claim_C5_unterminated_quote_accepted (s : List Char)
    (h : s.all (fun c => ¬ c = '\'') = true) :
    parse_command_line (String.mk ('\'' :: s)) =
      [(String.mk (stripChars ('\'' :: s)), none)] := by
  unfold parse_command_line
  rcases hsq : scanQ true false false s with ⟨sq', dq', esc'⟩
  have hA := parseLoop_noop s true false false sq' dq' esc'
    (noUnquotedOp_single_quote false false s h) hsq [] ['\''] []
  rw [List.append_nil] at hA
  rw [show (String.mk ('\'' :: s)).toList = '\'' :: s from rfl]
  rw [parseLoop_step]
  rw [if_pos ⟨rfl, rfl⟩]
  simp only [List.nil_append, Bool.not_false]
  rw [hA]
  rw [parseLoop_nil]
  rw [show (['\''] ++ s : List Char) = '\'' :: s from rfl]
  rw [parseFinal_nil_of_ne _ (stripChars_ne_nil _ '\'' (by simp) (by decide))]
  rfl

/-- Witness for C5 (amended): an unterminated quote swallowing `|`, `;`
and `&` still yields a single silent segment. -/
theorem claim_C5_witness :
    parse_command_line (String.mk ('\'' :: "echo | x ; y & ".toList)) =
      [(String.mk (stripChars ('\'' :: "echo | x ; y & ".toList)), none)] :=
  claim_C5_unterminated_quote_accepted "echo | x ; y & ".toList (by decide)

example : parse_command_line "a && b" = [("a", some .andSep), ("b", none)] := by decide
example : parse_command_line "a ; b" = [("a", some .semicolon), ("b", none)] := by decide
example : parse_command_line "cmd &" = [("cmd", some .background)] := by decide
example : parse_command_line "a | b &" = [("a", some .pipe), ("b", some .background)] := by decide
example : parse_command_line "echo a\"b c" = [("echo a\"b c", none)] := by decide
example : parse_command_line "  " = [] := by decide

end Swodnil
